import Mathlib

/-!
Shallow embedding of the rooster v2 password-vault core
(`src/password/v2.rs`, plus its callers in `src/commands/`).

Bytes are modelled as `Nat` (values kept below 256 where the source
guarantees it), byte strings as `List Nat`, Rust `String`s as `List Char`
(character sequence; `String::len` is the UTF-8 byte length, modelled by
`byteLen`).  The external crates used by the source (rust-crypto's scrypt,
HMAC-SHA-512, the AES-CBC cipher, and rustc_serialize's JSON codec, none
of which are part of this repository) are abstracted as a `Crypto`
structure of deterministic functions; theorems assume only the properties
the specification attributes to them, and a small executable `toyCrypto`
instance is provided so every theorem can be exercised on concrete data.
-/

namespace Rooster

/-- UTF-8 encoding of a single character (what Rust's `str::as_bytes`
produces per `char`). -/
def utf8EncodeChar (c : Char) : List Nat :=
  let n := c.toNat
  if n < 0x80 then [n]
  else if n < 0x800 then
    [0xC0 + n / 64, 0x80 + n % 64]
  else if n < 0x10000 then
    [0xE0 + n / 4096, 0x80 + n / 64 % 64, 0x80 + n % 64]
  else
    [0xF0 + n / 262144, 0x80 + n / 4096 % 64, 0x80 + n / 64 % 64, 0x80 + n % 64]

/-- UTF-8 byte string of a Rust string (`str::as_bytes`). -/
def utf8Encode (s : List Char) : List Nat :=
  (s.map utf8EncodeChar).flatten

/-- Rust `String::len`: the UTF-8 byte length. -/
def byteLen (s : List Char) : Nat :=
  (s.map (fun c => (utf8EncodeChar c).length)).sum

/-- Big-endian 4-byte encoding of a `u32`
(`byteorder::WriteBytesExt::write_u32::<BigEndian>`). -/
def u32be (n : Nat) : List Nat :=
  [n / 2 ^ 24 % 256, n / 2 ^ 16 % 256, n / 2 ^ 8 % 256, n % 256]

/-- Big-endian value of a byte string
(`byteorder::ReadBytesExt::read_u32::<BigEndian>` on exactly these bytes). -/
def u32val (l : List Nat) : Nat :=
  l.foldl (fun acc b => acc * 256 + b) 0

/-- `read_u32::<BigEndian>` on a cursor: take four bytes or fail with
unexpected EOF. -/
def readU32 : List Nat → Option (Nat × List Nat)
  | a :: b :: c :: d :: rest => some (((a * 256 + b) * 256 + c) * 256 + d, rest)
  | _ => none

/-- `read_u8` on a cursor. -/
def readU8 : List Nat → Option (Nat × List Nat)
  | a :: rest => some (a, rest)
  | _ => none

/-- `Read::read` into an `n`-byte buffer, demanding exactly `n` bytes
(the source maps a short read to an "unexpected eof" I/O error). -/
def readBytes (n : Nat) (l : List Nat) : Option (List Nat × List Nat) :=
  if n ≤ l.length then some (l.take n, l.drop n) else none

/-- One credential (`Password` in `v2.rs`): name, username, password and
the two Unix timestamps (`ffi::time_t`, a signed 64-bit integer). -/
structure Password where
  name : List Char
  username : List Char
  password : List Char
  created_at : Int
  updated_at : Int
deriving DecidableEq, Repr

/-- The error taxonomy (`PasswordError`).  The enum itself lives in
`src/password/mod.rs`, which is not among the provided sources; the
variants are the ones `v2.rs` constructs, plus `InvalidParametersError`,
modelled from the spec's error taxonomy (§7 lists `InvalidParameters` for
KDF parameters out of range). -/
inductive PasswordError where
  | Io (unexpectedEof : Bool)
  | WrongVersionError
  | CorruptionError
  | DecryptionError
  | InvalidJsonError
  | EncryptionError
  | AppExistsError
  | NoSuchAppError
  | InvalidParametersError
deriving DecidableEq, Repr

/-- The external cryptographic and serialization primitives used by
`v2.rs`.  These come from crates outside this repository (rust-crypto,
`aes`, `rustc_serialize::json`); they are deterministic functions of their
inputs, which is all the container logic relies on structurally.
`jsonDecode` folds the source's `String::from_utf8_lossy` followed by
`json::decode::<Schema>`, and `jsonEncode` folds `json::encode` followed
by `str::as_bytes`. -/
structure Crypto where
  scrypt : Nat → Nat → Nat → List Nat → List Nat → List Nat
  hmacSha512 : List Nat → List Nat → List Nat
  aesEncrypt : List Nat → List Nat → List Nat → Option (List Nat)
  aesDecrypt : List Nat → List Nat → List Nat → Option (List Nat)
  jsonEncode : List Password → Option (List Nat)
  jsonDecode : List Nat → Option (List Password)

/-- The in-memory store (`PasswordStore`): derived key, scrypt
parameters, salt, and the record list (`schema.passwords`). -/
structure PasswordStore where
  key : List Nat
  scrypt_log2_n : Nat
  scrypt_r : Nat
  scrypt_p : Nat
  salt : List Nat
  passwords : List Password
deriving DecidableEq, Repr

/-- `generate_encryption_key`: scrypt of the passphrase bytes and salt
under the given parameters. -/
def generate_encryption_key (C : Crypto) (log2n r p : Nat)
    (master_password : List Char) (salt : List Nat) : List Nat :=
  C.scrypt log2n r p (utf8Encode master_password) salt

/-- The byte string fed to HMAC-SHA-512 by `digest`: the source writes the
version into one cursor, `(log2_n, r, p)` into a second cursor, then feeds
the HMAC the version bytes, the scrypt bytes, the IV, the salt, and the
encrypted blob, in that order. -/
def digestMessage (version log2n r p : Nat) (iv salt blob : List Nat) : List Nat :=
  let version_bytes := u32be version
  let scrypt_bytes := [log2n] ++ u32be r ++ u32be p
  version_bytes ++ scrypt_bytes ++ iv ++ salt ++ blob

/-- `digest`: the HMAC-SHA-512 tag over `digestMessage`. -/
def digest (C : Crypto) (key : List Nat) (version log2n r p : Nat)
    (iv salt blob : List Nat) : List Nat :=
  C.hmacSha512 key (digestMessage version log2n r p iv salt blob)

/-- `PasswordStore::new`: fresh (random) salt supplied by the caller of the
model, default scrypt parameters `(12, 8, 1)`, empty record list. -/
def PasswordStore.new (C : Crypto) (master_password : List Char)
    (salt : List Nat) : PasswordStore :=
  { key := generate_encryption_key C 12 8 1 master_password salt
    scrypt_log2_n := 12
    scrypt_r := 8
    scrypt_p := 1
    salt := salt
    passwords := [] }

/-- `PasswordStore::from_input`: parse the container, derive the key,
verify the MAC, decrypt, parse the JSON. -/
def PasswordStore.from_input (C : Crypto) (master_password : List Char)
    (input : List Nat) : Except PasswordError PasswordStore :=
  match readU32 input with
  | none => .error (.Io true)
  | some (version, rest1) =>
    if version ≠ 2 then .error .WrongVersionError
    else match readU8 rest1 with
    | none => .error (.Io true)
    | some (scrypt_log2_n, rest2) =>
      match readU32 rest2 with
      | none => .error (.Io true)
      | some (scrypt_r, rest3) =>
        match readU32 rest3 with
        | none => .error (.Io true)
        | some (scrypt_p, rest4) =>
          match readBytes 32 rest4 with
          | none => .error (.Io true)
          | some (salt, rest5) =>
            match readBytes 16 rest5 with
            | none => .error (.Io true)
            | some (iv, rest6) =>
              match readBytes 64 rest6 with
              | none => .error (.Io true)
              | some (signature, blob) =>
                let key := generate_encryption_key C scrypt_log2_n scrypt_r
                  scrypt_p master_password salt
                let new_signature :=
                  digest C key version scrypt_log2_n scrypt_r scrypt_p iv salt blob
                if new_signature ≠ signature then .error .CorruptionError
                else match C.aesDecrypt blob key iv with
                | none => .error .DecryptionError
                | some decrypted =>
                  match C.jsonDecode decrypted with
                  | none => .error .InvalidJsonError
                  | some passwords =>
                    .ok { key := key
                          scrypt_log2_n := scrypt_log2_n
                          scrypt_r := scrypt_r
                          scrypt_p := scrypt_p
                          salt := salt
                          passwords := passwords }

/-- `PasswordStore::sync`, modelled as the byte string the file holds after
the truncate-and-rewrite succeeds.  The fresh random IV is supplied by the
caller of the model; the write order is version, `log2_n`, `r`, `p`, salt,
IV, signature, encrypted blob. -/
def PasswordStore.sync (C : Crypto) (st : PasswordStore) (iv : List Nat) :
    Except PasswordError (List Nat) :=
  match C.jsonEncode st.passwords with
  | none => .error .InvalidJsonError
  | some plaintext =>
    match C.aesEncrypt plaintext st.key iv with
    | none => .error .EncryptionError
    | some encrypted =>
      .ok (u32be 2 ++ [st.scrypt_log2_n] ++ u32be st.scrypt_r ++ u32be st.scrypt_p
        ++ st.salt ++ iv
        ++ digest C st.key 2 st.scrypt_log2_n st.scrypt_r st.scrypt_p iv st.salt encrypted
        ++ encrypted)

/-- Rust's `char::to_lowercase().nth(0)`, i.e. the first scalar of the
lowercase mapping.  On ASCII (the range the specification constrains) this
is the `'A'..'Z' ↦ 'a'..'z'` map and leaves every other character fixed. -/
def lowerFirst (c : Char) : Char :=
  if 'A' ≤ c ∧ c ≤ 'Z' then Char.ofNat (c.toNat + 32) else c

/-- The inner `while` loop of `get_password`: indices `0 ≤ i < n` must have
equal first-lowercase characters (an index past the end of either string
yields `none` on that side). -/
def charsMatch (a b : List Char) (n : Nat) : Bool :=
  (List.range n).all fun i =>
    decide ((a.get? i).map lowerFirst = (b.get? i).map lowerFirst)

/-- The comparison `get_password` applies to each stored name against the
query: equal UTF-8 byte lengths, then the character loop up to the stored
name's byte length. -/
def nameMatch (storedName queryName : List Char) : Bool :=
  byteLen storedName = byteLen queryName
    && charsMatch storedName queryName (byteLen storedName)

/-- The record-list scan of `get_password`. -/
def findPassword : List Password → List Char → Option Password
  | [], _ => none
  | p :: rest, name =>
    if nameMatch p.name name then some p else findPassword rest name

/-- `PasswordStore::get_password`. -/
def PasswordStore.get_password (st : PasswordStore) (name : List Char) :
    Option Password :=
  findPassword st.passwords name

/-- `PasswordStore::has_password`. -/
def PasswordStore.has_password (st : PasswordStore) (name : List Char) : Bool :=
  (st.get_password name).isSome

/-- `PasswordStore::add_password`.  The source mutates `&mut self` and
returns a `Result`; the model returns the updated store together with the
result, the store unchanged on error. -/
def PasswordStore.add_password (st : PasswordStore) (password : Password) :
    PasswordStore × Except PasswordError Unit :=
  if st.has_password password.name then (st, .error .AppExistsError)
  else ({ st with passwords := st.passwords ++ [password] }, .ok ())

/-- The index scan of `delete_password`: remove and return the first record
whose name is exactly (case-sensitively) `nm`, preserving the order of the
others (`Vec::remove`). -/
def removeFirstExact : List Password → List Char → Option (Password × List Password)
  | [], _ => none
  | q :: rest, nm =>
    if q.name = nm then some (q, rest)
    else match removeFirstExact rest nm with
      | some (r, rest') => some (r, q :: rest')
      | none => none

/-- `PasswordStore::delete_password`: look up by `get_password`'s rule,
then remove the first record with exactly the found record's name.  The
source's `unreachable!()` arm (the scan finding nothing although
`get_password` succeeded) is modelled as the dead `NoSuchAppError`
branch. -/
def PasswordStore.delete_password (st : PasswordStore) (name : List Char) :
    PasswordStore × Except PasswordError Password :=
  match st.get_password name with
  | none => (st, .error .NoSuchAppError)
  | some p =>
    match removeFirstExact st.passwords p.name with
    | some (r, rest) => ({ st with passwords := rest }, .ok r)
    | none => (st, .error .NoSuchAppError)

/-- `PasswordStore::change_master_password`: re-derive the key from the new
passphrase with the store's existing parameters and salt. -/
def PasswordStore.change_master_password (C : Crypto) (st : PasswordStore)
    (master_password : List Char) : PasswordStore :=
  { st with
    key := generate_encryption_key C st.scrypt_log2_n st.scrypt_r st.scrypt_p
      master_password st.salt }

/-- The container layout: version bytes, `log2_n` byte, `r` bytes, `p`
bytes, salt, IV, MAC tag, ciphertext — concatenated with no separators. -/
def containerOf (vb : List Nat) (log2n : Nat) (rb pb salt iv sig blob : List Nat) :
    List Nat :=
  vb ++ [log2n] ++ rb ++ pb ++ salt ++ iv ++ sig ++ blob

/- ### Executable stand-ins for the external primitives

The theorems below treat the primitives abstractly; these small executable
instances only serve to evaluate the development on concrete data. -/

/-- Truncate/zero-pad to exactly 64 bytes. -/
def pad64 (l : List Nat) : List Nat :=
  (l ++ List.replicate 64 0).take 64

/-- A tiny mixing function standing in for a hash. -/
def mixBytes (l : List Nat) : Nat :=
  l.foldl (fun a b => (a * 31 + b + 1) % 256) 7

/-- Stand-in KDF: 32 bytes determined by passphrase bytes and salt. -/
def toyScrypt (log2n r p : Nat) (pw salt : List Nat) : List Nat :=
  ((pw ++ [255, log2n, r % 256, p % 256] ++ salt) ++ List.replicate 32 0).take 32

/-- Stand-in MAC: 64 bytes determined by key and message. -/
def toyHmac (key msg : List Nat) : List Nat :=
  pad64 (mixBytes msg :: key)

/-- Stand-in cipher, encryption direction: PKCS#7 padding (every output is
a positive multiple of 16 bytes). -/
def toyEncrypt (pt _key _iv : List Nat) : Option (List Nat) :=
  let padLen := 16 - pt.length % 16
  some (pt ++ List.replicate padLen padLen)

/-- Stand-in cipher, decryption direction: validate and strip the padding. -/
def toyDecrypt (ct _key _iv : List Nat) : Option (List Nat) :=
  if ct.length % 16 = 0 ∧ ct ≠ [] then
    match (ct.reverse).head? with
    | some k =>
      if 1 ≤ k ∧ k ≤ 16 ∧ k ≤ ct.length ∧ ct.drop (ct.length - k) = List.replicate k k
      then some (ct.take (ct.length - k))
      else none
    | none => none
  else none

/-- Length-prefixed string serialization for the stand-in record codec. -/
def encStr (s : List Char) : List Nat :=
  s.length :: s.map Char.toNat

/-- Sign-and-magnitude integer serialization for the stand-in codec. -/
def encInt (i : Int) : List Nat :=
  [if i < 0 then 1 else 0, i.natAbs]

/-- One record, serialized by the stand-in codec. -/
def encPassword (p : Password) : List Nat :=
  encStr p.name ++ encStr p.username ++ encStr p.password
    ++ encInt p.created_at ++ encInt p.updated_at

/-- Stand-in for `json::encode` of the schema followed by `as_bytes`. -/
def toyJsonEncode (ps : List Password) : Option (List Nat) :=
  some (ps.length :: (ps.map encPassword).flatten)

/-- Stand-in string deserialization. -/
def decStr : List Nat → Option (List Char × List Nat)
  | n :: rest =>
    if n ≤ rest.length then some ((rest.take n).map Char.ofNat, rest.drop n)
    else none
  | [] => none

/-- Stand-in integer deserialization. -/
def decInt : List Nat → Option (Int × List Nat)
  | s :: m :: rest => some (if s = 1 then -(m : Int) else (m : Int), rest)
  | _ => none

/-- Stand-in record deserialization. -/
def decPassword (l : List Nat) : Option (Password × List Nat) :=
  match decStr l with
  | none => none
  | some (name, l1) =>
    match decStr l1 with
    | none => none
    | some (username, l2) =>
      match decStr l2 with
      | none => none
      | some (password, l3) =>
        match decInt l3 with
        | none => none
        | some (created_at, l4) =>
          match decInt l4 with
          | none => none
          | some (updated_at, l5) =>
            some ({ name := name, username := username, password := password,
                    created_at := created_at, updated_at := updated_at }, l5)

/-- Stand-in list deserialization, by record count. -/
def decPasswords : Nat → List Nat → Option (List Password × List Nat)
  | 0, l => some ([], l)
  | n + 1, l =>
    match decPassword l with
    | none => none
    | some (p, rest) =>
      match decPasswords n rest with
      | none => none
      | some (ps, rest') => some (p :: ps, rest')

/-- Stand-in for `from_utf8_lossy` followed by `json::decode::<Schema>`. -/
def toyJsonDecode (l : List Nat) : Option (List Password) :=
  match l with
  | [] => none
  | n :: rest =>
    match decPasswords n rest with
    | some (ps, []) => some ps
    | _ => none

/-- The executable instance of the external primitives. -/
def toyCrypto : Crypto :=
  { scrypt := toyScrypt
    hmacSha512 := toyHmac
    aesEncrypt := toyEncrypt
    aesDecrypt := toyDecrypt
    jsonEncode := toyJsonEncode
    jsonDecode := toyJsonDecode }

/-- Following the spec's words (§4.4): the input to HMAC-SHA-512 is the
concatenation, in this exact order, of the version as 4 big-endian bytes,
`log2_n` as 1 byte, `r` as 4 big-endian bytes, `p` as 4 big-endian bytes,
the 16-byte IV, the 32-byte salt, then the ciphertext.  Kept separate from
`digestMessage` (translated from the source) so the two can be compared. -/
def specMacInput (version log2n r p : Nat) (iv salt ct : List Nat) : List Nat :=
  u32be version ++ [log2n] ++ u32be r ++ u32be p ++ iv ++ salt ++ ct

/-- ASCII character predicate. -/
def isAsciiChar (c : Char) : Bool :=
  c.toNat < 128

/-- Two ASCII strings that differ at most in letter case: same length,
same characters after lowercasing, all characters ASCII. -/
def asciiCaseVariant (a b : List Char) : Bool :=
  a.length = b.length
    && (List.range a.length).all
        (fun i => decide ((a.get? i).map lowerFirst = (b.get? i).map lowerFirst))
    && a.all isAsciiChar && b.all isAsciiChar

/-- The record-list invariant: no two records share a name under the
store's case-insensitive comparison. -/
def UniqueNames (l : List Password) : Prop :=
  List.Pairwise (fun a b => nameMatch a.name b.name = false) l

instance (l : List Password) : Decidable (UniqueNames l) := by
  unfold UniqueNames
  infer_instance

/- ### Concrete sample data, used to exercise the theorems -/

/-- A sample master passphrase. -/
def samplePw : List Char := ['h']

/-- A second, different master passphrase. -/
def samplePw2 : List Char := ['b']

/-- A sample (fixed) 32-byte salt. -/
def sampleSalt : List Nat := List.replicate 32 1

/-- A sample (fixed) 16-byte IV. -/
def sampleIv : List Nat := List.replicate 16 2

/-- A sample record. -/
def sampleRecord : Password :=
  { name := ['Y', 'o', 'u', 'T', 'u', 'b', 'e'], username := ['m', 'e'],
    password := ['s', 'w'], created_at := 1000, updated_at := 1000 }

/-- A second sample record, with a name distinct from `sampleRecord`'s. -/
def sampleRecord2 : Password :=
  { name := ['G', 'm', 'a', 'i', 'l'], username := ['m', 'e'],
    password := ['p', 'w'], created_at := 5, updated_at := 6 }

/-- A sample store: created with `samplePw` and `sampleSalt`, then one
record added. -/
def sampleStore : PasswordStore :=
  ((PasswordStore.new toyCrypto samplePw sampleSalt).add_password sampleRecord).1

/-- The stand-in codec's serialization of `sampleStore`'s record list. -/
def samplePt : List Nat := 1 :: encPassword sampleRecord

/-- The stand-in cipher's ciphertext for `samplePt`. -/
def sampleCt : List Nat := samplePt ++ List.replicate 13 13

/-- A syntactically well-formed container whose stored scrypt `r`
parameter is zero (out of range). -/
def badParamContainer : List Nat :=
  containerOf (u32be 2) 12 (u32be 0) (u32be 1) (List.replicate 32 0)
    (List.replicate 16 0) (List.replicate 64 0) (List.replicate 16 0)

/- ### Parsing lemmas -/

theorem readU8_cons (a : Nat) (l : List Nat) : readU8 (a :: l) = some (a, l) := rfl

theorem readU32_append (vb : List Nat) (l : List Nat) (h : vb.length = 4) :
    readU32 (vb ++ l) = some (u32val vb, l) := by
  match vb, h with
  | [a, b, c, d], _ =>
    simp [readU32, u32val]

theorem u32val_u32be (n : Nat) (h : n < 2 ^ 32) : u32val (u32be n) = n := by
  simp only [u32be, u32val, List.foldl]
  omega

theorem length_u32be (n : Nat) : (u32be n).length = 4 := rfl

theorem readU32_u32be (n : Nat) (l : List Nat) (h : n < 2 ^ 32) :
    readU32 (u32be n ++ l) = some (n, l) := by
  rw [readU32_append _ _ (length_u32be n), u32val_u32be n h]

theorem readBytes_append (a l : List Nat) : readBytes a.length (a ++ l) = some (a, l) := by
  simp [readBytes, List.take_left, List.drop_left]

theorem readBytes_append' (n : Nat) (a l : List Nat) (h : a.length = n) :
    readBytes n (a ++ l) = some (a, l) := by
  subst h; exact readBytes_append a l

/-- What `from_input` does on a container split into its layout fields:
check the version, derive the key, verify the MAC, decrypt, parse. -/
theorem from_input_containerOf (C : Crypto) (pw : List Char)
    (vb : List Nat) (log2n : Nat) (rb pb salt iv sig blob : List Nat)
    (hvb : vb.length = 4) (hrb : rb.length = 4) (hpb : pb.length = 4)
    (hsalt : salt.length = 32) (hiv : iv.length = 16) (hsig : sig.length = 64) :
    PasswordStore.from_input C pw (containerOf vb log2n rb pb salt iv sig blob) =
      if u32val vb ≠ 2 then .error .WrongVersionError
      else
        let key := generate_encryption_key C log2n (u32val rb) (u32val pb) pw salt
        if digest C key 2 log2n (u32val rb) (u32val pb) iv salt blob ≠ sig then
          .error .CorruptionError
        else
          match C.aesDecrypt blob key iv with
          | none => .error .DecryptionError
          | some decrypted =>
            match C.jsonDecode decrypted with
            | none => .error .InvalidJsonError
            | some passwords =>
              .ok { key := key, scrypt_log2_n := log2n, scrypt_r := u32val rb,
                    scrypt_p := u32val pb, salt := salt, passwords := passwords } := by
  rw [PasswordStore.from_input]
  rw [show containerOf vb log2n rb pb salt iv sig blob
      = vb ++ ([log2n] ++ (rb ++ (pb ++ (salt ++ (iv ++ (sig ++ blob))))))
      from by simp [containerOf]]
  rw [readU32_append _ _ hvb]
  by_cases hv : u32val vb = 2
  · simp only [hv]
    rw [if_neg (show ¬((2 : Nat) ≠ 2) by simp)]
    rw [if_neg (show ¬((2 : Nat) ≠ 2) by simp)]
    simp only [List.singleton_append, readU8_cons, readU32_append rb _ hrb,
      readU32_append pb _ hpb, readBytes_append' 32 salt _ hsalt,
      readBytes_append' 16 iv _ hiv, readBytes_append' 64 sig _ hsig]
  · simp [hv]

/-- `sync`'s output, named field by field: when serialization and
encryption succeed, the file holds exactly the container layout. -/
theorem sync_eq (C : Crypto) (st : PasswordStore) (iv pt ct : List Nat)
    (hpt : C.jsonEncode st.passwords = some pt)
    (hct : C.aesEncrypt pt st.key iv = some ct) :
    st.sync C iv = .ok (containerOf (u32be 2) st.scrypt_log2_n (u32be st.scrypt_r)
      (u32be st.scrypt_p) st.salt iv
      (digest C st.key 2 st.scrypt_log2_n st.scrypt_r st.scrypt_p iv st.salt ct) ct) := by
  simp [PasswordStore.sync, hpt, hct, containerOf]

/-- C1: for every store whose key is derived from passphrase `pw` (as it is
for every store reached from `create`/`open` by `add`/`delete`, none of
which touch the key or salt), opening the bytes produced by `sync` with
`pw` succeeds and yields a store whose record list equals the original
store's record list, field-wise and in the same order.  The properties the
spec attributes to the external primitives — the JSON codec and the cipher
invert their encoding, and the MAC tag is 64 bytes — are hypotheses. -/
theorem C1_round_trip (C : Crypto) (st : PasswordStore) (pw : List Char)
    (iv pt ct : List Nat)
    (hkey : st.key = generate_encryption_key C st.scrypt_log2_n st.scrypt_r
      st.scrypt_p pw st.salt)
    (hsalt : st.salt.length = 32) (hiv : iv.length = 16)
    (hr : st.scrypt_r < 2 ^ 32) (hp : st.scrypt_p < 2 ^ 32)
    (hpt : C.jsonEncode st.passwords = some pt)
    (hct : C.aesEncrypt pt st.key iv = some ct)
    (htag : (digest C st.key 2 st.scrypt_log2_n st.scrypt_r st.scrypt_p iv
      st.salt ct).length = 64)
    (hdec : C.aesDecrypt ct st.key iv = some pt)
    (hjson : C.jsonDecode pt = some st.passwords) :
    ∃ out st', st.sync C iv = .ok out ∧
      PasswordStore.from_input C pw out = .ok st' ∧
      st'.passwords = st.passwords := by
  have hopen : PasswordStore.from_input C pw
      (containerOf (u32be 2) st.scrypt_log2_n (u32be st.scrypt_r) (u32be st.scrypt_p)
        st.salt iv (digest C st.key 2 st.scrypt_log2_n st.scrypt_r st.scrypt_p iv
          st.salt ct) ct)
      = .ok { key := st.key, scrypt_log2_n := st.scrypt_log2_n,
              scrypt_r := st.scrypt_r, scrypt_p := st.scrypt_p,
              salt := st.salt, passwords := st.passwords } := by
    rw [from_input_containerOf C pw _ _ _ _ _ _ _ _ (length_u32be 2)
      (length_u32be _) (length_u32be _) hsalt hiv htag]
    rw [u32val_u32be 2 (by norm_num), u32val_u32be _ hr, u32val_u32be _ hp, ← hkey]
    rw [if_neg (by simp)]
    rw [if_neg (by simp)]
    simp only [hdec, hjson]
  exact ⟨_, _, sync_eq C st iv pt ct hpt hct, hopen, rfl⟩

/-- C1, exercised: the sample store synced with the sample IV re-opens
under the sample passphrase with the same record list. -/
theorem C1_round_trip_witness :
    ∃ out st', PasswordStore.sync toyCrypto sampleStore sampleIv = .ok out ∧
      PasswordStore.from_input toyCrypto samplePw out = .ok st' ∧
      st'.passwords = sampleStore.passwords :=
  C1_round_trip toyCrypto sampleStore samplePw sampleIv samplePt sampleCt
    (by decide) (by decide) (by decide) (by decide) (by decide) (by decide)
    (by decide) (by decide) (by decide) (by decide)

/-- C2: opening a container produced by `sync` under a key derived from
`pw1` with a different passphrase `pw2` returns `Corruption` and no store:
the MAC recomputed under the key derived from `pw2` does not match the
stored tag (that mismatch — the cryptographic content of the claim, which
the spec attributes to the key difference — is the hypothesis `hmacNe`). -/
theorem C2_wrong_passphrase (C : Crypto) (st : PasswordStore)
    (pw1 pw2 : List Char) (iv pt ct : List Nat)
    (hkey : st.key = generate_encryption_key C st.scrypt_log2_n st.scrypt_r
      st.scrypt_p pw1 st.salt)
    (hsalt : st.salt.length = 32) (hiv : iv.length = 16)
    (hr : st.scrypt_r < 2 ^ 32) (hp : st.scrypt_p < 2 ^ 32)
    (hpt : C.jsonEncode st.passwords = some pt)
    (hct : C.aesEncrypt pt st.key iv = some ct)
    (htag : (digest C st.key 2 st.scrypt_log2_n st.scrypt_r st.scrypt_p iv
      st.salt ct).length = 64)
    (hne : pw2 ≠ pw1)
    (hmacNe : digest C (generate_encryption_key C st.scrypt_log2_n st.scrypt_r
        st.scrypt_p pw2 st.salt) 2 st.scrypt_log2_n st.scrypt_r st.scrypt_p iv
        st.salt ct
      ≠ digest C st.key 2 st.scrypt_log2_n st.scrypt_r st.scrypt_p iv st.salt ct) :
    ∀ out, st.sync C iv = .ok out →
      PasswordStore.from_input C pw2 out = .error .CorruptionError := by
  intro out hout
  rw [sync_eq C st iv pt ct hpt hct] at hout
  obtain rfl : out = _ := (Except.ok.inj hout).symm
  rw [from_input_containerOf C pw2 _ _ _ _ _ _ _ _ (length_u32be 2)
    (length_u32be _) (length_u32be _) hsalt hiv htag]
  rw [u32val_u32be 2 (by norm_num), u32val_u32be _ hr, u32val_u32be _ hp]
  rw [if_neg (by simp)]
  rw [if_pos hmacNe]

set_option maxRecDepth 8000 in
/-- C2, exercised: re-opening the synced sample container with the second
sample passphrase fails with `Corruption`. -/
theorem C2_wrong_passphrase_witness :
    PasswordStore.from_input toyCrypto samplePw2
        (containerOf (u32be 2) sampleStore.scrypt_log2_n
          (u32be sampleStore.scrypt_r) (u32be sampleStore.scrypt_p)
          sampleStore.salt sampleIv
          (digest toyCrypto sampleStore.key 2 sampleStore.scrypt_log2_n
            sampleStore.scrypt_r sampleStore.scrypt_p sampleIv sampleStore.salt
            sampleCt) sampleCt)
      = .error .CorruptionError :=
  C2_wrong_passphrase toyCrypto sampleStore samplePw samplePw2 sampleIv samplePt
    sampleCt (by decide) (by decide) (by decide) (by decide) (by decide)
    (by decide) (by decide) (by decide) (by decide) (by decide) _ rfl

/-- The byte string the source feeds to the HMAC coincides with the
ordering the spec prescribes. -/
theorem digestMessage_eq_specMacInput (version log2n r p : Nat)
    (iv salt blob : List Nat) :
    digestMessage version log2n r p iv salt blob
      = specMacInput version log2n r p iv salt blob := by
  simp [digestMessage, specMacInput]

/-- C3: the MAC tag is HMAC-SHA-512 over exactly the bytes
`version(4,BE) ++ log2_n(1) ++ r(4,BE) ++ p(4,BE) ++ iv(16) ++ salt(32) ++
ciphertext`, and both `sync` (when tagging) and `from_input` (when
verifying) compute the tag over that same ordering. -/
theorem C3_mac_input_order :
    (∀ version log2n r p iv salt blob,
      digestMessage version log2n r p iv salt blob
        = specMacInput version log2n r p iv salt blob)
    ∧ (∀ (C : Crypto) (st : PasswordStore) iv pt ct,
        C.jsonEncode st.passwords = some pt →
        C.aesEncrypt pt st.key iv = some ct →
        st.sync C iv = .ok (containerOf (u32be 2) st.scrypt_log2_n
          (u32be st.scrypt_r) (u32be st.scrypt_p) st.salt iv
          (C.hmacSha512 st.key (specMacInput 2 st.scrypt_log2_n st.scrypt_r
            st.scrypt_p iv st.salt ct)) ct))
    ∧ (∀ (C : Crypto) (pw : List Char) vb log2n rb pb salt iv sig blob,
        vb.length = 4 → rb.length = 4 → pb.length = 4 → salt.length = 32 →
        iv.length = 16 → sig.length = 64 → u32val vb = 2 →
        (PasswordStore.from_input C pw (containerOf vb log2n rb pb salt iv sig blob)
            = .error .CorruptionError
          ↔ C.hmacSha512
              (generate_encryption_key C log2n (u32val rb) (u32val pb) pw salt)
              (specMacInput 2 log2n (u32val rb) (u32val pb) iv salt blob) ≠ sig)) := by
  refine ⟨digestMessage_eq_specMacInput, ?_, ?_⟩
  · intro C st iv pt ct hpt hct
    rw [sync_eq C st iv pt ct hpt hct]
    simp only [digest, digestMessage_eq_specMacInput]
  · intro C pw vb log2n rb pb salt iv sig blob hvb hrb hpb hsalt hiv hsig hv
    rw [from_input_containerOf C pw vb log2n rb pb salt iv sig blob hvb hrb hpb
      hsalt hiv hsig]
    rw [if_neg (by simp [hv])]
    simp only [digest, digestMessage_eq_specMacInput]
    by_cases hm : C.hmacSha512
        (generate_encryption_key C log2n (u32val rb) (u32val pb) pw salt)
        (specMacInput 2 log2n (u32val rb) (u32val pb) iv salt blob) ≠ sig
    · rw [if_pos hm]
      simp [hm]
    · rw [if_neg hm]
      cases hD : C.aesDecrypt blob
          (generate_encryption_key C log2n (u32val rb) (u32val pb) pw salt) iv with
      | none => simp [hm]
      | some pt =>
        cases hJ : C.jsonDecode pt with
        | none => simp [hm, hJ]
        | some ps => simp [hm, hJ]

set_option maxRecDepth 8000 in
/-- C3, exercised at the sample data and on a concrete container. -/
theorem C3_mac_input_order_witness :
    (digestMessage 2 12 8 1 sampleIv sampleSalt sampleCt
      = specMacInput 2 12 8 1 sampleIv sampleSalt sampleCt)
    ∧ PasswordStore.sync toyCrypto sampleStore sampleIv
        = .ok (containerOf (u32be 2) sampleStore.scrypt_log2_n
          (u32be sampleStore.scrypt_r) (u32be sampleStore.scrypt_p)
          sampleStore.salt sampleIv
          (toyCrypto.hmacSha512 sampleStore.key
            (specMacInput 2 sampleStore.scrypt_log2_n sampleStore.scrypt_r
              sampleStore.scrypt_p sampleIv sampleStore.salt sampleCt)) sampleCt)
    ∧ (PasswordStore.from_input toyCrypto samplePw
          (containerOf (u32be 2) 12 (u32be 0) (u32be 1) (List.replicate 32 0)
            (List.replicate 16 0) (List.replicate 64 0) (List.replicate 16 0))
          = .error .CorruptionError
        ↔ toyCrypto.hmacSha512
            (generate_encryption_key toyCrypto 12 (u32val (u32be 0))
              (u32val (u32be 1)) samplePw (List.replicate 32 0))
            (specMacInput 2 12 (u32val (u32be 0)) (u32val (u32be 1))
              (List.replicate 16 0) (List.replicate 32 0) (List.replicate 16 0))
          ≠ List.replicate 64 0) :=
  ⟨C3_mac_input_order.1 2 12 8 1 sampleIv sampleSalt sampleCt,
   C3_mac_input_order.2.1 toyCrypto sampleStore sampleIv samplePt sampleCt
     (by decide) (by decide),
   C3_mac_input_order.2.2 toyCrypto samplePw (u32be 2) 12 (u32be 0) (u32be 1)
     (List.replicate 32 0) (List.replicate 16 0) (List.replicate 64 0)
     (List.replicate 16 0) (by decide) (by decide) (by decide) (by decide)
     (by decide) (by decide) (by decide)⟩

/-- C4: the byte stream written by `sync` is exactly
`version(4,BE) ++ log2_n(1) ++ r(4,BE) ++ p(4,BE) ++ salt(32) ++ iv(16) ++
mac_tag(64) ++ ciphertext` with no separators and no trailing bytes; bytes
`[0..4)` are `00 00 00 02`, byte 4 is the store's `log2_n`, the header is
125 bytes, and the ciphertext length is a positive multiple of 16 (the
cipher's output length being a positive multiple of 16 is the spec's §4.5
property of AES-CBC/PKCS#7, taken as hypotheses `hctLen`, `hctPos`). -/
theorem C4_header_layout (C : Crypto) (st : PasswordStore) (iv pt ct : List Nat)
    (hsalt : st.salt.length = 32) (hiv : iv.length = 16)
    (hpt : C.jsonEncode st.passwords = some pt)
    (hct : C.aesEncrypt pt st.key iv = some ct)
    (htag : (digest C st.key 2 st.scrypt_log2_n st.scrypt_r st.scrypt_p iv
      st.salt ct).length = 64)
    (hctLen : ct.length % 16 = 0) (hctPos : 0 < ct.length) :
    ∀ out, st.sync C iv = .ok out →
      out = u32be 2 ++ [st.scrypt_log2_n] ++ u32be st.scrypt_r ++ u32be st.scrypt_p
        ++ st.salt ++ iv
        ++ digest C st.key 2 st.scrypt_log2_n st.scrypt_r st.scrypt_p iv st.salt ct
        ++ ct
      ∧ out.take 4 = [0, 0, 0, 2]
      ∧ (out.drop 4).take 1 = [st.scrypt_log2_n]
      ∧ out.length = 125 + ct.length
      ∧ out.drop 125 = ct
      ∧ (out.length - 125) % 16 = 0 ∧ 0 < out.length - 125 := by
  intro out hout
  rw [sync_eq C st iv pt ct hpt hct] at hout
  obtain rfl : out = _ := (Except.ok.inj hout).symm
  set tag := digest C st.key 2 st.scrypt_log2_n st.scrypt_r st.scrypt_p iv
    st.salt ct with htagdef
  have hassoc : containerOf (u32be 2) st.scrypt_log2_n (u32be st.scrypt_r)
      (u32be st.scrypt_p) st.salt iv tag ct
      = u32be 2 ++ ([st.scrypt_log2_n] ++ (u32be st.scrypt_r ++ (u32be st.scrypt_p
        ++ (st.salt ++ (iv ++ (tag ++ ct)))))) := by
    simp [containerOf]
  have hheader : containerOf (u32be 2) st.scrypt_log2_n (u32be st.scrypt_r)
      (u32be st.scrypt_p) st.salt iv tag ct
      = (u32be 2 ++ [st.scrypt_log2_n] ++ u32be st.scrypt_r ++ u32be st.scrypt_p
        ++ st.salt ++ iv ++ tag) ++ ct := by
    simp [containerOf]
  have hlen125 : (u32be 2 ++ [st.scrypt_log2_n] ++ u32be st.scrypt_r
      ++ u32be st.scrypt_p ++ st.salt ++ iv ++ tag).length = 125 := by
    simp [List.length_append, length_u32be, hsalt, hiv, htag]
  refine ⟨hheader, ?_, ?_, ?_, ?_, ?_, ?_⟩
  · rw [hassoc, show (4 : Nat) = (u32be 2).length from rfl, List.take_left]
    decide
  · rw [hassoc, show (4 : Nat) = (u32be 2).length from rfl, List.drop_left,
      show (1 : Nat) = [st.scrypt_log2_n].length from rfl, List.take_left]
  · rw [hheader]
    simp only [List.length_append, length_u32be, List.length_singleton, hsalt,
      hiv, htag]
  · rw [hheader, show (125 : Nat) = (u32be 2 ++ [st.scrypt_log2_n]
      ++ u32be st.scrypt_r ++ u32be st.scrypt_p ++ st.salt ++ iv ++ tag).length
      from hlen125.symm, List.drop_left]
  · rw [hheader]
    simp only [List.length_append, hlen125]
    omega
  · rw [hheader]
    simp only [List.length_append, hlen125]
    omega

set_option maxRecDepth 8000 in
/-- C4, exercised at the sample store's synced container. -/
theorem C4_header_layout_witness :
    containerOf (u32be 2) sampleStore.scrypt_log2_n (u32be sampleStore.scrypt_r)
        (u32be sampleStore.scrypt_p) sampleStore.salt sampleIv
        (digest toyCrypto sampleStore.key 2 sampleStore.scrypt_log2_n
          sampleStore.scrypt_r sampleStore.scrypt_p sampleIv sampleStore.salt
          sampleCt) sampleCt
      = u32be 2 ++ [sampleStore.scrypt_log2_n] ++ u32be sampleStore.scrypt_r
        ++ u32be sampleStore.scrypt_p ++ sampleStore.salt ++ sampleIv
        ++ digest toyCrypto sampleStore.key 2 sampleStore.scrypt_log2_n
          sampleStore.scrypt_r sampleStore.scrypt_p sampleIv sampleStore.salt
          sampleCt
        ++ sampleCt
    ∧ (containerOf (u32be 2) sampleStore.scrypt_log2_n (u32be sampleStore.scrypt_r)
        (u32be sampleStore.scrypt_p) sampleStore.salt sampleIv
        (digest toyCrypto sampleStore.key 2 sampleStore.scrypt_log2_n
          sampleStore.scrypt_r sampleStore.scrypt_p sampleIv sampleStore.salt
          sampleCt) sampleCt).take 4 = [0, 0, 0, 2]
    ∧ ((containerOf (u32be 2) sampleStore.scrypt_log2_n (u32be sampleStore.scrypt_r)
        (u32be sampleStore.scrypt_p) sampleStore.salt sampleIv
        (digest toyCrypto sampleStore.key 2 sampleStore.scrypt_log2_n
          sampleStore.scrypt_r sampleStore.scrypt_p sampleIv sampleStore.salt
          sampleCt) sampleCt).drop 4).take 1 = [sampleStore.scrypt_log2_n]
    ∧ (containerOf (u32be 2) sampleStore.scrypt_log2_n (u32be sampleStore.scrypt_r)
        (u32be sampleStore.scrypt_p) sampleStore.salt sampleIv
        (digest toyCrypto sampleStore.key 2 sampleStore.scrypt_log2_n
          sampleStore.scrypt_r sampleStore.scrypt_p sampleIv sampleStore.salt
          sampleCt) sampleCt).length = 125 + sampleCt.length
    ∧ (containerOf (u32be 2) sampleStore.scrypt_log2_n (u32be sampleStore.scrypt_r)
        (u32be sampleStore.scrypt_p) sampleStore.salt sampleIv
        (digest toyCrypto sampleStore.key 2 sampleStore.scrypt_log2_n
          sampleStore.scrypt_r sampleStore.scrypt_p sampleIv sampleStore.salt
          sampleCt) sampleCt).drop 125 = sampleCt
    ∧ ((containerOf (u32be 2) sampleStore.scrypt_log2_n (u32be sampleStore.scrypt_r)
        (u32be sampleStore.scrypt_p) sampleStore.salt sampleIv
        (digest toyCrypto sampleStore.key 2 sampleStore.scrypt_log2_n
          sampleStore.scrypt_r sampleStore.scrypt_p sampleIv sampleStore.salt
          sampleCt) sampleCt).length - 125) % 16 = 0
    ∧ 0 < (containerOf (u32be 2) sampleStore.scrypt_log2_n
        (u32be sampleStore.scrypt_r) (u32be sampleStore.scrypt_p) sampleStore.salt
        sampleIv
        (digest toyCrypto sampleStore.key 2 sampleStore.scrypt_log2_n
          sampleStore.scrypt_r sampleStore.scrypt_p sampleIv sampleStore.salt
          sampleCt) sampleCt).length - 125 :=
  C4_header_layout toyCrypto sampleStore sampleIv samplePt sampleCt
    (by decide) (by decide) (by decide) (by decide) (by decide) (by decide)
    (by decide) _ rfl

/-- On any input whatsoever, `from_input` returns `WrongVersion` exactly
when the 4-byte version field is present and its value is not 2; no later
stage of the pipeline ever produces `WrongVersion`. -/
theorem from_input_wrongVersion_iff (C : Crypto) (pw : List Char)
    (input : List Nat) :
    PasswordStore.from_input C pw input = .error .WrongVersionError
      ↔ ∃ v rest, readU32 input = some (v, rest) ∧ v ≠ 2 := by
  cases hR : readU32 input with
  | none =>
    rw [PasswordStore.from_input]
    simp [hR]
  | some vr =>
    obtain ⟨v, rest⟩ := vr
    rw [PasswordStore.from_input]
    simp only [hR]
    by_cases hv : v = 2
    · rw [if_neg (by simp [hv])]
      constructor
      · intro h
        exfalso
        repeat' split at h
        all_goals simp at h
      · rintro ⟨v', rest', hvr, hne⟩
        have hpair := Option.some.inj hvr
        rw [Prod.mk.injEq] at hpair
        obtain ⟨rfl, rfl⟩ := hpair
        exact absurd hv hne
    · rw [if_pos (by simp [hv])]
      exact ⟨fun _ => ⟨v, rest, rfl, hv⟩, fun _ => rfl⟩

/-- C5: `from_input` checks version, then MAC, then decryption, then JSON,
in that order, and returns the error of the first failing check:
`WrongVersion` iff the (present) version field is not 2; otherwise
`Corruption` iff the recomputed MAC differs from the stored tag; otherwise
`DecryptionError` iff the cipher rejects the ciphertext; otherwise
`InvalidJson` iff the plaintext does not parse. -/
theorem C5_check_order (C : Crypto) (pw : List Char)
    (vb : List Nat) (log2n : Nat) (rb pb salt iv sig blob : List Nat)
    (hvb : vb.length = 4) (hrb : rb.length = 4) (hpb : pb.length = 4)
    (hsalt : salt.length = 32) (hiv : iv.length = 16) (hsig : sig.length = 64) :
    (∀ input, PasswordStore.from_input C pw input = .error .WrongVersionError
        ↔ ∃ v rest, readU32 input = some (v, rest) ∧ v ≠ 2)
    ∧ (u32val vb = 2 →
        (PasswordStore.from_input C pw (containerOf vb log2n rb pb salt iv sig blob)
            = .error .CorruptionError
          ↔ digest C (generate_encryption_key C log2n (u32val rb) (u32val pb) pw salt)
              2 log2n (u32val rb) (u32val pb) iv salt blob ≠ sig))
    ∧ (u32val vb = 2 →
        digest C (generate_encryption_key C log2n (u32val rb) (u32val pb) pw salt)
            2 log2n (u32val rb) (u32val pb) iv salt blob = sig →
        (PasswordStore.from_input C pw (containerOf vb log2n rb pb salt iv sig blob)
            = .error .DecryptionError
          ↔ C.aesDecrypt blob
              (generate_encryption_key C log2n (u32val rb) (u32val pb) pw salt) iv
              = none))
    ∧ (u32val vb = 2 →
        digest C (generate_encryption_key C log2n (u32val rb) (u32val pb) pw salt)
            2 log2n (u32val rb) (u32val pb) iv salt blob = sig →
        ∀ pt, C.aesDecrypt blob
            (generate_encryption_key C log2n (u32val rb) (u32val pb) pw salt) iv
            = some pt →
        (PasswordStore.from_input C pw (containerOf vb log2n rb pb salt iv sig blob)
            = .error .InvalidJsonError
          ↔ C.jsonDecode pt = none)) := by
  have hfi := from_input_containerOf C pw vb log2n rb pb salt iv sig blob hvb hrb
    hpb hsalt hiv hsig
  refine ⟨fun input => from_input_wrongVersion_iff C pw input, ?_, ?_, ?_⟩
  · intro hv
    rw [hfi, if_neg (by simp [hv])]
    by_cases hm : digest C
        (generate_encryption_key C log2n (u32val rb) (u32val pb) pw salt)
        2 log2n (u32val rb) (u32val pb) iv salt blob ≠ sig
    · rw [if_pos hm]
      simp [hm]
    · rw [if_neg hm]
      cases hD : C.aesDecrypt blob
          (generate_encryption_key C log2n (u32val rb) (u32val pb) pw salt) iv with
      | none => simp [hm]
      | some pt =>
        cases hJ : C.jsonDecode pt with
        | none => simp [hm, hJ]
        | some ps => simp [hm, hJ]
  · intro hv hm
    rw [hfi, if_neg (by simp [hv]), if_neg (by simp [hm])]
    cases hD : C.aesDecrypt blob
        (generate_encryption_key C log2n (u32val rb) (u32val pb) pw salt) iv with
    | none => simp
    | some pt =>
      cases hJ : C.jsonDecode pt with
      | none => simp [hJ]
      | some ps => simp [hJ]
  · intro hv hm pt hD
    rw [hfi, if_neg (by simp [hv]), if_neg (by simp [hm])]
    simp only [hD]
    cases hJ : C.jsonDecode pt with
    | none => simp [hJ]
    | some ps => simp [hJ]

set_option maxRecDepth 8000 in
/-- C5, exercised: on a concrete container whose MAC does not match, the
`Corruption` iff holds after a passing version check. -/
theorem C5_check_order_witness :
    PasswordStore.from_input toyCrypto samplePw
        (containerOf (u32be 2) 12 (u32be 0) (u32be 1) (List.replicate 32 0)
          (List.replicate 16 0) (List.replicate 64 0) (List.replicate 16 0))
        = .error .CorruptionError
      ↔ digest toyCrypto
          (generate_encryption_key toyCrypto 12 (u32val (u32be 0))
            (u32val (u32be 1)) samplePw (List.replicate 32 0))
          2 12 (u32val (u32be 0)) (u32val (u32be 1)) (List.replicate 16 0)
          (List.replicate 32 0) (List.replicate 16 0)
        ≠ List.replicate 64 0 :=
  (C5_check_order toyCrypto samplePw (u32be 2) 12 (u32be 0) (u32be 1)
    (List.replicate 32 0) (List.replicate 16 0) (List.replicate 64 0)
    (List.replicate 16 0) (by decide) (by decide) (by decide) (by decide)
    (by decide) (by decide)).2.1 (by decide)

/- ### Lookup lemmas -/

/-- The scan of `get_password` is exactly "first record whose name matches". -/
theorem findPassword_eq_find? (l : List Password) (name : List Char) :
    findPassword l name = l.find? (fun p => nameMatch p.name name) := by
  induction l with
  | nil => rfl
  | cons p t ih =>
    by_cases h : nameMatch p.name name
    · rw [findPassword, if_pos h]
      exact (List.find?_cons_of_pos t h).symm
    · rw [findPassword, if_neg h, ih]
      exact (List.find?_cons_of_neg t (by simpa using h)).symm

/-- A failed scan means no record matches. -/
theorem findPassword_eq_none (l : List Password) (name : List Char) :
    findPassword l name = none ↔ ∀ q ∈ l, nameMatch q.name name = false := by
  induction l with
  | nil => simp [findPassword]
  | cons p t ih =>
    by_cases h : nameMatch p.name name
    · simp [findPassword, h]
    · simp only [findPassword, if_neg h, ih, List.mem_cons]
      constructor
      · intro ht q hq
        rcases hq with rfl | hq
        · simpa using h
        · exact ht q hq
      · intro hall q hq
        exact hall q (Or.inr hq)

/-- A successful scan splits the list at the first matching record. -/
theorem findPassword_eq_some (l : List Password) (name : List Char) (p : Password)
    (h : findPassword l name = some p) :
    ∃ l1 l2, l = l1 ++ p :: l2 ∧ (∀ q ∈ l1, nameMatch q.name name = false)
      ∧ nameMatch p.name name = true := by
  induction l with
  | nil => simp [findPassword] at h
  | cons q t ih =>
    by_cases hq : nameMatch q.name name
    · rw [findPassword, if_pos hq] at h
      obtain rfl : q = p := by injection h
      exact ⟨[], t, rfl, by simp, hq⟩
    · rw [findPassword, if_neg hq] at h
      obtain ⟨l1, l2, rfl, hl1, hp⟩ := ih h
      refine ⟨q :: l1, l2, rfl, ?_, hp⟩
      intro r hr
      rcases List.mem_cons.mp hr with rfl | hr
      · simpa using hq
      · exact hl1 r hr

/-- ASCII characters occupy one UTF-8 byte, so the byte length of an
all-ASCII string is its character count. -/
theorem byteLen_of_ascii (a : List Char) (h : ∀ c ∈ a, isAsciiChar c = true) :
    byteLen a = a.length := by
  induction a with
  | nil => rfl
  | cons c t ih =>
    have hc : c.toNat < 128 := by simpa [isAsciiChar] using h c (by simp)
    have ht : byteLen t = t.length := ih fun d hd => h d (by simp [hd])
    simp only [byteLen, List.map_cons, List.sum_cons, List.length_cons] at *
    rw [show (utf8EncodeChar c).length = 1 from by
      simp [utf8EncodeChar, show c.toNat < 0x80 from hc], ht]
    omega

/-- The character loop only sees the query through its indexed
first-lowercase characters. -/
theorem charsMatch_congr (x n1 n2 : List Char) (k : Nat)
    (h : ∀ i, (n1.get? i).map lowerFirst = (n2.get? i).map lowerFirst) :
    charsMatch x n1 k = charsMatch x n2 k := by
  unfold charsMatch
  congr 1
  funext i
  rw [h i]

/-- The whole comparison only sees the query through its byte length and
its indexed first-lowercase characters. -/
theorem nameMatch_congr (x n1 n2 : List Char) (hb : byteLen n1 = byteLen n2)
    (h : ∀ i, (n1.get? i).map lowerFirst = (n2.get? i).map lowerFirst) :
    nameMatch x n1 = nameMatch x n2 := by
  unfold nameMatch
  rw [hb, charsMatch_congr x n1 n2 (byteLen x) h]

/-- Unpacking `asciiCaseVariant`: equal byte lengths and pointwise equal
first-lowercase characters. -/
theorem asciiCaseVariant_spec (a b : List Char) (h : asciiCaseVariant a b = true) :
    byteLen a = byteLen b
      ∧ ∀ i, (a.get? i).map lowerFirst = (b.get? i).map lowerFirst := by
  simp only [asciiCaseVariant, Bool.and_eq_true, List.all_eq_true,
    decide_eq_true_eq, List.mem_range] at h
  obtain ⟨⟨⟨hlen, hpt⟩, ha⟩, hb⟩ := h
  constructor
  · rw [byteLen_of_ascii a ha, byteLen_of_ascii b hb, hlen]
  · intro i
    by_cases hi : i < a.length
    · exact hpt i hi
    · rw [List.get?_eq_none.mpr (by omega), List.get?_eq_none.mpr (by omega)]

/-- C6: `get_password` returns the first record, in list order, whose name
matches the query under the store's case-insensitive comparison (`none` if
no record matches, and only the first match even if the uniqueness
invariant is violated); and two ASCII queries differing only in letter
case always yield the same result. -/
theorem C6_get_case_insensitive :
    (∀ (st : PasswordStore) (name : List Char),
      st.get_password name = st.passwords.find? (fun p => nameMatch p.name name))
    ∧ (∀ (st : PasswordStore) (n1 n2 : List Char),
        asciiCaseVariant n1 n2 = true →
        st.get_password n1 = st.get_password n2) := by
  constructor
  · intro st name
    exact findPassword_eq_find? st.passwords name
  · intro st n1 n2 h
    obtain ⟨hb, hpt⟩ := asciiCaseVariant_spec n1 n2 h
    show findPassword st.passwords n1 = findPassword st.passwords n2
    induction st.passwords with
    | nil => rfl
    | cons p t ih =>
      rw [findPassword, findPassword, nameMatch_congr p.name n1 n2 hb hpt, ih]

/-- C6, exercised: `get` is insensitive to ASCII case on the sample store
("youtube" vs "YOUTUBE"), and it returns the first match of the scan. -/
theorem C6_get_case_insensitive_witness :
    sampleStore.get_password ['y', 'o', 'u', 't', 'u', 'b', 'e']
        = sampleStore.get_password ['Y', 'O', 'U', 'T', 'U', 'B', 'E']
    ∧ sampleStore.get_password ['Y', 'o', 'u', 'T', 'u', 'b', 'e']
        = sampleStore.passwords.find?
            (fun p => nameMatch p.name ['Y', 'o', 'u', 'T', 'u', 'b', 'e']) :=
  ⟨C6_get_case_insensitive.2 sampleStore _ _ (by decide),
   C6_get_case_insensitive.1 sampleStore _⟩

/-- C7: on a store satisfying the uniqueness invariant, `add_password`
fails with `AppExists` and leaves the list unchanged when a record with
the same name (case-insensitively) exists, and otherwise appends the
record at the end; the uniqueness invariant is preserved. -/
theorem C7_add_preserves_uniqueness (st : PasswordStore) (p : Password)
    (hu : UniqueNames st.passwords) :
    (st.has_password p.name = true →
      st.add_password p = (st, .error .AppExistsError))
    ∧ (st.has_password p.name = false →
        st.add_password p = ({ st with passwords := st.passwords ++ [p] }, .ok ())
        ∧ UniqueNames (st.passwords ++ [p])) := by
  constructor
  · intro h
    simp [PasswordStore.add_password, h]
  · intro h
    have hnone : findPassword st.passwords p.name = none := by
      cases hfp : findPassword st.passwords p.name with
      | none => rfl
      | some q =>
        rw [PasswordStore.has_password, PasswordStore.get_password, hfp] at h
        simp at h
    have hall : ∀ q ∈ st.passwords, nameMatch q.name p.name = false :=
      (findPassword_eq_none _ _).mp hnone
    refine ⟨by simp [PasswordStore.add_password, h], ?_⟩
    unfold UniqueNames
    rw [List.pairwise_append]
    refine ⟨hu, by simp, ?_⟩
    intro a ha b hb
    rw [List.mem_singleton.mp hb]
    exact hall a ha

/-- C7, exercised: adding a fresh record to the sample store appends it
and keeps names unique; adding a name that already exists (even in a
different letter case) would fail with `AppExists`. -/
theorem C7_add_preserves_uniqueness_witness :
    (sampleStore.has_password sampleRecord2.name = true →
      sampleStore.add_password sampleRecord2 = (sampleStore, .error .AppExistsError))
    ∧ (sampleStore.has_password sampleRecord2.name = false →
        sampleStore.add_password sampleRecord2
          = ({ sampleStore with passwords := sampleStore.passwords ++ [sampleRecord2] },
             .ok ())
        ∧ UniqueNames (sampleStore.passwords ++ [sampleRecord2])) :=
  C7_add_preserves_uniqueness sampleStore sampleRecord2 (by decide)

/-- The index scan of `delete_password` removes exactly the first record
carrying the given name when the records before it all have different
names. -/
theorem removeFirstExact_split (l1 : List Password) (p : Password)
    (l2 : List Password) (h : ∀ q ∈ l1, q.name ≠ p.name) :
    removeFirstExact (l1 ++ p :: l2) p.name = some (p, l1 ++ l2) := by
  induction l1 with
  | nil => simp [removeFirstExact]
  | cons q t ih =>
    have hq : q.name ≠ p.name := h q (by simp)
    rw [List.cons_append, removeFirstExact, if_neg hq,
      ih fun r hr => h r (by simp [hr])]
    simp

/-- C8: `delete_password` fails with `NoSuchApp` and leaves the list
unchanged when `get_password` finds nothing; otherwise it returns the
record `get_password` returns and removes exactly that record, leaving
every other record in its original relative order. -/
theorem C8_delete_matches_get (st : PasswordStore) (name : List Char) :
    (st.get_password name = none →
      st.delete_password name = (st, .error .NoSuchAppError))
    ∧ (∀ p, st.get_password name = some p →
        ∃ l1 l2, st.passwords = l1 ++ p :: l2
          ∧ (∀ q ∈ l1, nameMatch q.name name = false)
          ∧ st.delete_password name = ({ st with passwords := l1 ++ l2 }, .ok p)) := by
  constructor
  · intro h
    simp [PasswordStore.delete_password, h]
  · intro p hp
    obtain ⟨l1, l2, hsplit, hl1, hpm⟩ := findPassword_eq_some st.passwords name p hp
    refine ⟨l1, l2, hsplit, hl1, ?_⟩
    have hne : ∀ q ∈ l1, q.name ≠ p.name := by
      intro q hq heq
      have hf := hl1 q hq
      rw [heq] at hf
      rw [hf] at hpm
      exact Bool.noConfusion hpm
    have hrem : removeFirstExact st.passwords p.name = some (p, l1 ++ l2) := by
      rw [hsplit]
      exact removeFirstExact_split l1 p l2 hne
    simp [PasswordStore.delete_password, hp, hrem]

/-- C8, exercised: deleting a missing name fails with `NoSuchApp`; deleting
"youtube" (lower case) removes the "YouTube" record `get` finds. -/
theorem C8_delete_matches_get_witness :
    (sampleStore.delete_password ['G', 'm', 'a', 'i', 'l']
      = (sampleStore, .error .NoSuchAppError))
    ∧ (∃ l1 l2, sampleStore.passwords = l1 ++ sampleRecord :: l2
        ∧ (∀ q ∈ l1, nameMatch q.name ['y', 'o', 'u', 't', 'u', 'b', 'e'] = false)
        ∧ sampleStore.delete_password ['y', 'o', 'u', 't', 'u', 'b', 'e']
            = ({ sampleStore with passwords := l1 ++ l2 }, .ok sampleRecord)) :=
  ⟨(C8_delete_matches_get sampleStore _).1 (by decide),
   (C8_delete_matches_get sampleStore _).2 sampleRecord (by decide)⟩

/-- C9: `change_master_password` replaces only the derived key, re-deriving
it from the new passphrase with the store's existing salt and existing KDF
parameters; salt, KDF parameters and record list are unchanged. -/
theorem C9_rekey_frame (C : Crypto) (st : PasswordStore) (pw : List Char) :
    (st.change_master_password C pw).key
        = generate_encryption_key C st.scrypt_log2_n st.scrypt_r st.scrypt_p pw
            st.salt
    ∧ (st.change_master_password C pw).salt = st.salt
    ∧ (st.change_master_password C pw).scrypt_log2_n = st.scrypt_log2_n
    ∧ (st.change_master_password C pw).scrypt_r = st.scrypt_r
    ∧ (st.change_master_password C pw).scrypt_p = st.scrypt_p
    ∧ (st.change_master_password C pw).passwords = st.passwords :=
  ⟨rfl, rfl, rfl, rfl, rfl, rfl⟩

set_option maxRecDepth 8000 in
/-- C10, counterexample to the claimed behaviour: a syntactically
well-formed container whose stored scrypt `r` parameter is 0 is NOT
rejected with `InvalidParameters`; `from_input` derives a key with the
out-of-range parameters and proceeds to MAC verification (here failing
with `Corruption`). -/
theorem C10_counterexample :
    PasswordStore.from_input toyCrypto samplePw badParamContainer
        = .error .CorruptionError
    ∧ PasswordStore.from_input toyCrypto samplePw badParamContainer
        ≠ .error .InvalidParametersError := by
  have h1 : PasswordStore.from_input toyCrypto samplePw badParamContainer
      = .error .CorruptionError := by rfl
  exact ⟨h1, by rw [h1]; simp⟩

/-- C10, amended: `from_input` performs no KDF-parameter validation at
all — it never returns `InvalidParameters` on any input. -/
theorem C10_no_param_validation (C : Crypto) (pw : List Char) (input : List Nat) :
    PasswordStore.from_input C pw input ≠ .error .InvalidParametersError := by
  intro h
  rw [PasswordStore.from_input] at h
  repeat' split at h
  all_goals (try simp at h)
  all_goals (split at h <;> (try simp at h))
  all_goals (repeat' split at h)
  all_goals simp at h

end Rooster
